import Mathlib

/-
Shallow embedding of the quantized (PQ) storage backend of the pgvectorscale
access method (src/timescale_vector/src/access_method/pq_storage.rs and
storage.rs), together with models of the collaborating pieces
(plain_node, graph.ListSearchResult, pq_quantizer, storage_common) that the
repository uses but whose sources are not part of the excerpt; those models
are marked as modelled from the spec.

ItemPointer and HeapPointer are modelled as Nat, full vectors as List Int,
compressed PQ codes as List Nat, and distances as Int.
-/

/-- ArchivedNode: the persisted unit representing one indexed vector.
Modelled from the spec: plain_node.rs is not under src/. Per the data model,
a node holds a heap back-pointer, an adjacency list of neighbor pointers
with cached distances, a compressed code (pq_vector for this backend) and a
deletion flag (tombstone). -/
structure ArchivedNode where
  heap_item_pointer : Nat
  neighbors : List (Nat × Int)
  pq_vector : List Nat
  deleted : Bool
deriving Repr, DecidableEq

/-- is_deleted reads the tombstone flag of a node. -/
def ArchivedNode.is_deleted (n : ArchivedNode) : Bool := n.deleted

/-- set_neighbors: replaces the adjacency list of a node, leaving the other
fields alone. Modelled from the spec: plain_node.rs is not under src/;
set_neighbors_on_disk persists an updated adjacency list. -/
def ArchivedNode.set_neighbors (n : ArchivedNode) (ns : List (Nat × Int)) : ArchivedNode :=
  { n with neighbors := ns }

/-- set_pq_vector: replaces the stored compressed code of a node. Modelled
from the spec: plain_node.rs is not under src/. -/
def ArchivedNode.set_pq_vector (n : ArchivedNode) (code : List Nat) : ArchivedNode :=
  { n with pq_vector := code }

/-- NodeStore: the index pages holding persisted nodes, as an association
list from ItemPointer to node. -/
abbrev NodeStore : Type := List (Nat × ArchivedNode)

/-- Node.read: resolves an ItemPointer to the persisted node. A pointer that
does not resolve gives none; in the code this is an error raised inside the
read primitive, which the callers in pq_storage.rs never catch. -/
def Node.read (store : NodeStore) (p : Nat) : Option ArchivedNode :=
  (List.find? (fun e => e.1 = p) store).map (fun e => e.2)

/-- Node.write: commits a modified node in place at the given ItemPointer
(the modify / commit cycle of the host page primitives collapsed into one
functional update). All other entries are untouched. -/
def Node.write (store : NodeStore) (p : Nat) (n : ArchivedNode) : NodeStore :=
  List.map (fun e => if e.1 = p then (p, n) else e) store

/-- PqDistanceTable: per-query lookup structure. Modelled from the spec:
pq_quantizer.rs is not under src/. The table precomputes, for each
quantization segment and each codebook entry in that segment, the partial
distance contribution to the query. -/
structure PqDistanceTable where
  entries : List (List Int)
deriving Repr, DecidableEq

/-- PqQuantizer: trained codebook state plus the training-time sample
accumulator. Modelled from the spec: pq_quantizer.rs is not under src/.
The codebook is a list of segments, each a list of centroids. The training
field is none outside a training pass and holds the accumulated samples
during one. -/
structure PqQuantizer where
  pq : Option (List (List (List Int)))
  training : Option (List (List Int))

/-- new: an untrained quantizer with no training pass in progress. -/
def PqQuantizer.new : PqQuantizer := { pq := none, training := none }

/-- start_training: opens a training pass with an empty sample accumulator.
Modelled from the spec: pq_quantizer.rs is not under src/. -/
def PqQuantizer.start_training (q : PqQuantizer) : PqQuantizer :=
  { q with training := some [] }

/-- add_sample: accumulates one training sample. Modelled from the spec:
pq_quantizer.rs is not under src/. -/
def PqQuantizer.add_sample (q : PqQuantizer) (v : List Int) : PqQuantizer :=
  { q with training := q.training.map (fun s => s ++ [v]) }

/-- trainPq: builds a codebook from the accumulated samples. The actual
k-means construction is out of scope per the spec; only the consumption
contract matters, so the codebook is one segment whose centroids are the
samples. -/
def trainPq (samples : List (List Int)) : List (List (List Int)) := [samples]

/-- finish_training of the quantizer: fails (none) when no training pass is
open or when zero samples were added, otherwise produces the trained
codebook and closes the pass. Modelled from the spec: pq_quantizer.rs is
not under src/; finishing training with zero samples is a fatal
configuration error, reported rather than silently defaulted. -/
def PqQuantizer.finish_training (q : PqQuantizer) : Option PqQuantizer :=
  match q.training with
  | none => none
  | some samples =>
      if samples.isEmpty then none
      else some { pq := some (trainPq samples), training := none }

/-- must_get_pq: the trained codebook, failing (none, a fatal error in the
code) when the quantizer is untrained. Modelled from the spec:
pq_quantizer.rs is not under src/. -/
def PqQuantizer.must_get_pq (q : PqQuantizer) : Option (List (List (List Int))) := q.pq

/-- sqDist: squared euclidean distance helper used to pick the nearest
centroid when quantizing. -/
def sqDist (a b : List Int) : Int :=
  (List.zip a b).foldl (fun acc e => acc + (e.1 - e.2) * (e.1 - e.2)) 0

/-- idxOfMin: index of the least element of a list of Int (0 for the empty
list), used to pick the nearest centroid of a segment. -/
def idxOfMin (l : List Int) : Nat :=
  (l.foldl
    (fun acc d =>
      match acc with
      | (best, bestIdx, i) => if d < best then (d, i, i + 1) else (best, bestIdx, i + 1))
    ((0 : Int), (0 : Nat), (0 : Nat))).2.1

/-- quantize: converts a full vector to a compressed code, one nearest
centroid index per segment of the codebook. Modelled from the spec:
pq_quantizer.rs is not under src/ and the exact codebook assignment is out
of scope; what matters is that the code is a function of the trained
codebook and the full vector. -/
def PqQuantizer.quantize (q : PqQuantizer) (v : List Int) : List Nat :=
  (q.pq.getD []).map (fun seg => idxOfMin (seg.map (fun c => sqDist c v)))

/-- get_distance_table: builds the per-query lookup table, applying the
configured distance function to each codebook centroid and the query.
Modelled from the spec: pq_quantizer.rs is not under src/. -/
def PqQuantizer.get_distance_table (q : PqQuantizer) (query : List Int)
    (distance_fn : List Int → List Int → Int) : PqDistanceTable :=
  { entries := (q.pq.getD []).map (fun seg => seg.map (fun c => distance_fn c query)) }

/-- PqSearchDistanceMeasure: the per-query distance strategy, either the raw
query vector (Full) or a precomputed lookup table (Pq). Mirrors the enum
consumed by pq_storage.rs. -/
inductive PqSearchDistanceMeasure where
  | Full (query : List Int)
  | Pq (table : PqDistanceTable)
deriving Repr, DecidableEq

/-- calculate_pq_distance: distance of a compressed code to the query, a
table lookup plus sum over segments. Modelled from the spec:
pq_quantizer.rs is not under src/. -/
def PqSearchDistanceMeasure.calculate_pq_distance (table : PqDistanceTable)
    (code : List Nat) : Int :=
  (List.zip table.entries code).foldl (fun acc e => acc + e.1.getD e.2 0) 0

/-- HeapRelation: the external heap collaborator; fetch resolves a heap
pointer to the full vector of the corresponding row. -/
structure HeapRelation where
  fetch : Nat → List Int

/-- PqCompressionStorage: the quantized storage backend. Fields follow the
struct in pq_storage.rs: a configured distance function, the quantizer, and
the optional heap relation and heap attribute bindings. -/
structure PqCompressionStorage where
  distance_fn : List Int → List Int → Int
  quantizer : PqQuantizer
  heap_rel : Option HeapRelation
  heap_attr : Option Nat

/-- new_for_build: build-time construction, binding the heap relation and
attribute and starting from a fresh quantizer. -/
def PqCompressionStorage.new_for_build (heap_rel : HeapRelation) (heap_attr : Nat)
    (distance_fn : List Int → List Int → Int) : PqCompressionStorage :=
  { distance_fn := distance_fn
    quantizer := PqQuantizer.new
    heap_rel := some heap_rel
    heap_attr := some heap_attr }

/-- load_for_insert: insert-time construction; the quantizer is loaded from
the persisted metadata (modelled as being handed the stored quantizer) and
the heap relation and attribute are bound. -/
def PqCompressionStorage.load_for_insert (heap_rel : HeapRelation) (heap_attr : Nat)
    (quantizer : PqQuantizer)
    (distance_fn : List Int → List Int → Int) : PqCompressionStorage :=
  { distance_fn := distance_fn
    quantizer := quantizer
    heap_rel := some heap_rel
    heap_attr := some heap_attr }

/-- load_for_search: search-time construction; the quantizer is cloned but
the heap relation and attribute are left unbound (None in the code). -/
def PqCompressionStorage.load_for_search (quantizer : PqQuantizer)
    (distance_fn : List Int → List Int → Int) : PqCompressionStorage :=
  { distance_fn := distance_fn
    quantizer := quantizer
    heap_rel := none
    heap_attr := none }

/-- get_heap_table_slot_from_heap_pointer: acquires the heap row for a heap
pointer, collapsed to the full vector it carries. The code unwraps the
optional heap relation and heap attribute, so an unbound heap relation is a
fatal failure (none). -/
def PqCompressionStorage.get_heap_table_slot_from_heap_pointer
    (s : PqCompressionStorage) (heap_pointer : Nat) : Option (List Int) :=
  match s.heap_rel, s.heap_attr with
  | some rel, some _ => some (rel.fetch heap_pointer)
  | _, _ => none

/-- calculate_full_distance: fetches the full vector from external heap
storage via the heap pointer and applies the configured distance function
against the query. Modelled from the spec: storage_common.rs is not under
src/; the slot acquisition it relies on is the one above, taken from
pq_storage.rs. -/
def calculate_full_distance (s : PqCompressionStorage) (heap_pointer : Nat)
    (query : List Int) : Option Int :=
  (s.get_heap_table_slot_from_heap_pointer heap_pointer).map
    (fun v => s.distance_fn v query)

/-- get_quantized_vector_from_heap_pointer: fetches the full vector from the
heap and quantizes it (pq_storage.rs lines 105 to 113). -/
def PqCompressionStorage.get_quantized_vector_from_heap_pointer
    (s : PqCompressionStorage) (heap_pointer : Nat) : Option (List Nat) :=
  (s.get_heap_table_slot_from_heap_pointer heap_pointer).map
    (fun v => s.quantizer.quantize v)

/-- GraphNeighborStore: where adjacency comes from during traversal, either
the persisted node (disk) or the in-memory staging used during build.
Modelled from the spec: graph_neighbor_store.rs is not under src/. -/
inductive GraphNeighborStore where
  | disk
  | builder (map : List (Nat × List Nat))

/-- pvtNeighbors: the neighbor snapshot stored in the private data of a
ListSearchNeighbor, as built by PlainStorageLsnPrivateData.new from the
node and the graph neighbor store. Modelled from the spec:
plain_storage.rs and graph_neighbor_store.rs are not under src/; the
disk-backed variant reads adjacency from the persisted node, the builder
variant from the staged map. -/
def pvtNeighbors (gns : GraphNeighborStore) (p : Nat) (node : ArchivedNode) : List Nat :=
  match gns with
  | .disk => node.neighbors.map (fun e => e.1)
  | .builder m => ((List.find? (fun e => e.1 = p) m).map (fun e => e.2)).getD []

/-- ListSearchNeighbor: one candidate of the search working set: its
ItemPointer, its computed distance, and the private data (neighbor snapshot
and heap pointer). Modelled from the spec: graph.rs is not under src/. -/
structure ListSearchNeighbor where
  index_pointer : Nat
  distance : Int
  neighbors : List Nat
  heap_pointer : Nat
deriving Repr, DecidableEq

/-- ListSearchResult: the search working set. The seen list models the
mapping owned by the result set that guarantees at most one entry per
ItemPointer; candidates is the ordered candidate list; sdm is the per-query
distance measure (unwrapped by the visit code). Modelled from the spec:
graph.rs is not under src/. -/
structure ListSearchResult where
  seen : List Nat
  candidates : List ListSearchNeighbor
  sdm : Option PqSearchDistanceMeasure
deriving Repr, DecidableEq

/-- prepare_insert: returns true and registers the pointer when it was not
yet present; returns false and changes nothing when it was. Modelled from
the spec: graph.rs is not under src/; the result set owns a mapping from
ItemPointer to position guaranteeing at most one entry per node, and a
duplicate is silently ignored, not re-scored. -/
def ListSearchResult.prepare_insert (lsr : ListSearchResult) (p : Nat) :
    Bool × ListSearchResult :=
  if p ∈ lsr.seen then (false, lsr)
  else (true, { lsr with seen := p :: lsr.seen })

/-- insert_neighbor: appends a candidate to the working set. Modelled from
the spec: graph.rs is not under src/. -/
def ListSearchResult.insert_neighbor (lsr : ListSearchResult)
    (lsn : ListSearchNeighbor) : ListSearchResult :=
  { lsr with candidates := lsr.candidates ++ [lsn] }

/-- VisitResult: outcome of running an embedded operation: it ran out of
fuel (only possible below the proved fuel bound), hit a fatal error (an
unwrap failure or an explicit fatal branch in the code), or finished. -/
inductive VisitResult (α : Type) where
  | outOfFuel
  | fatal
  | ok (value : α)
deriving Repr, DecidableEq

/-- visit_lsn_internal: the greedy-search expansion loop of pq_storage.rs
(lines 121 to 180), fuel-indexed. For each neighbor pointer: prepare_insert
dedupes (a duplicate is skipped and the loop continues); the node is read
(an unresolvable pointer is a fatal error raised by the read, which this
function does not catch); in Full mode a deleted node is expanded through
recursively as a pass-through hop and never inserted, a live node gets a
full distance from the heap; in Pq mode the distance always comes from the
stored compressed code and the node is inserted either way. -/
def visit_lsn_internal (s : PqCompressionStorage) (store : NodeStore)
    (gns : GraphNeighborStore) :
    Nat → ListSearchResult → List Nat → VisitResult ListSearchResult
  | 0, _, _ => .outOfFuel
  | _ + 1, lsr, [] => .ok lsr
  | fuel + 1, lsr, p :: rest =>
    match lsr.prepare_insert p with
    | (false, lsr0) => visit_lsn_internal s store gns fuel lsr0 rest
    | (true, lsr1) =>
      match Node.read store p with
      | none => .fatal
      | some node =>
        match lsr1.sdm with
        | none => .fatal
        | some (.Full query) =>
          if node.is_deleted then
            match visit_lsn_internal s store gns fuel lsr1 (pvtNeighbors gns p node) with
            | .ok lsr2 => visit_lsn_internal s store gns fuel lsr2 rest
            | .fatal => .fatal
            | .outOfFuel => .outOfFuel
          else
            match calculate_full_distance s node.heap_item_pointer query with
            | none => .fatal
            | some d =>
              visit_lsn_internal s store gns fuel
                (lsr1.insert_neighbor
                  ⟨p, d, pvtNeighbors gns p node, node.heap_item_pointer⟩) rest
        | some (.Pq table) =>
          visit_lsn_internal s store gns fuel
            (lsr1.insert_neighbor
              ⟨p, PqSearchDistanceMeasure.calculate_pq_distance table node.pq_vector,
               pvtNeighbors gns p node, node.heap_item_pointer⟩) rest

/-- create_lsn_for_init_id: seeds the search with an entry point
(pq_storage.rs lines 288 to 324). A duplicate init id is a fatal error (the
code raises, it does not skip); in Full mode a deleted entry node is a
fatal error before any distance is computed; in Pq mode the distance comes
from the stored compressed code with no tombstone check. -/
def create_lsn_for_init_id (s : PqCompressionStorage) (store : NodeStore)
    (gns : GraphNeighborStore) (lsr : ListSearchResult) (p : Nat) :
    VisitResult (ListSearchResult × ListSearchNeighbor) :=
  match lsr.prepare_insert p with
  | (false, _) => .fatal
  | (true, lsr1) =>
    match Node.read store p with
    | none => .fatal
    | some node =>
      match lsr1.sdm with
      | none => .fatal
      | some (.Full query) =>
        if node.is_deleted then .fatal
        else
          match calculate_full_distance s node.heap_item_pointer query with
          | none => .fatal
          | some d => .ok (lsr1, ⟨p, d, pvtNeighbors gns p node, node.heap_item_pointer⟩)
      | some (.Pq table) =>
        .ok (lsr1,
          ⟨p, PqSearchDistanceMeasure.calculate_pq_distance table node.pq_vector,
           pvtNeighbors gns p node, node.heap_item_pointer⟩)

/-- visit_lsn: expands the candidate at the given index through
visit_lsn_internal on its private neighbor snapshot (pq_storage.rs lines
326 to 335). -/
def visit_lsn (s : PqCompressionStorage) (store : NodeStore)
    (gns : GraphNeighborStore) (fuel : Nat) (lsr : ListSearchResult)
    (lsn_idx : Nat) : VisitResult ListSearchResult :=
  match lsr.candidates[lsn_idx]? with
  | none => .fatal
  | some lsn => visit_lsn_internal s store gns fuel lsr lsn.neighbors

/-- get_search_distance_measure: the per-search factory (pq_storage.rs lines
249 to 262): the Full variant holding the raw query when the flag is false,
the Pq variant holding the quantizer-built distance table when it is true. -/
def PqCompressionStorage.get_search_distance_measure (s : PqCompressionStorage)
    (query : List Int) (calc_distance_with_quantizer : Bool) :
    PqSearchDistanceMeasure :=
  if !calc_distance_with_quantizer then .Full query
  else .Pq (s.quantizer.get_distance_table query s.distance_fn)

/-- write_quantizer_metadata: persists the trained codebook metadata
(pq_storage.rs lines 115 to 119); must_get_pq makes an untrained quantizer
a fatal error. The written metadata is modelled as the codebook value. -/
def PqCompressionStorage.write_quantizer_metadata (s : PqCompressionStorage) :
    Option (List (List (List Int))) :=
  s.quantizer.must_get_pq

/-- finish_training of the storage (pq_storage.rs lines 215 to 218):
finishes quantizer training, then writes the quantizer metadata. A failure
in either step is fatal and nothing is written. -/
def PqCompressionStorage.finish_training (s : PqCompressionStorage) :
    Option (PqCompressionStorage × List (List (List Int))) :=
  match s.quantizer.finish_training with
  | none => none
  | some q1 =>
    ({ s with quantizer := q1 } : PqCompressionStorage).write_quantizer_metadata.map
      (fun md => ({ s with quantizer := q1 }, md))

/-- finalize_node_at_end_of_build (pq_storage.rs lines 220 to 239): modifies
the node in place, storing the given neighbors as final adjacency, then
computes the compressed code by fetching the full vector from the heap via
the node heap back-pointer and quantizing it, and commits both changes in
one modify / commit cycle (a single Node.write). -/
def PqCompressionStorage.finalize_node_at_end_of_build (s : PqCompressionStorage)
    (store : NodeStore) (p : Nat) (neighbors : List (Nat × Int)) :
    Option NodeStore :=
  match Node.read store p with
  | none => none
  | some node =>
    match s.get_quantized_vector_from_heap_pointer node.heap_item_pointer with
    | none => none
    | some quantized =>
      some (Node.write store p ((node.set_neighbors neighbors).set_pq_vector quantized))

/-- set_neighbors_on_disk (pq_storage.rs lines 345 to 356): modifies the
node in place, replacing its adjacency with the given neighbors, and
commits. -/
def PqCompressionStorage.set_neighbors_on_disk (_s : PqCompressionStorage)
    (store : NodeStore) (p : Nat) (neighbors : List (Nat × Int)) :
    Option NodeStore :=
  match Node.read store p with
  | none => none
  | some node => some (Node.write store p (node.set_neighbors neighbors))

/-- storeKeys: the set of ItemPointers present in the node store. -/
def storeKeys (store : NodeStore) : Finset Nat :=
  (store.map (fun e => e.1)).toFinset

/-- unseenCount: how many stored pointers the working set has not yet
registered; the decreasing quantity of the termination argument. -/
def unseenCount (store : NodeStore) (lsr : ListSearchResult) : Nat :=
  (storeKeys store \ lsr.seen.toFinset).card

/-- nbrLenBound: a bound on the length of any neighbor snapshot the
expansion can be handed, over both the persisted nodes and the builder
staging map. -/
def nbrLenBound (store : NodeStore) (gns : GraphNeighborStore) : Nat :=
  max (store.foldl (fun acc e => max acc e.2.neighbors.length) 0)
    (match gns with
     | .disk => 0
     | .builder m => m.foldl (fun acc e => max acc e.2.length) 0)

/-- visitFuel: the fuel bound under which visit_lsn_internal is proved never
to run out: the pending list length plus the number of unseen stored nodes
times one more than the neighbor-list bound. -/
def visitFuel (store : NodeStore) (gns : GraphNeighborStore)
    (lsr : ListSearchResult) (neighbors : List Nat) : Nat :=
  neighbors.length + unseenCount store lsr * (nbrLenBound store gns + 1)

/-- noDupCandidates: each ItemPointer occurs at most once among the
candidates of the working set. -/
def noDupCandidates (lsr : ListSearchResult) : Prop :=
  (lsr.candidates.map ListSearchNeighbor.index_pointer).Nodup

/-- candidatesSeen: every candidate pointer is registered in the
deduplication mapping of the working set. -/
def candidatesSeen (lsr : ListSearchResult) : Prop :=
  ∀ c ∈ lsr.candidates, c.index_pointer ∈ lsr.seen

/-- candidatesLive: no candidate of the working set points at a tombstoned
node of the store. -/
def candidatesLive (store : NodeStore) (lsr : ListSearchResult) : Prop :=
  ∀ c ∈ lsr.candidates, ∀ node, Node.read store c.index_pointer = some node →
    node.is_deleted = false

/-- candidatesFullDist: every candidate distance is the configured distance
function applied to the full vector fetched from the heap relation at the
node heap back-pointer, against the query. -/
def candidatesFullDist (s : PqCompressionStorage) (store : NodeStore)
    (rel : HeapRelation) (query : List Int) (lsr : ListSearchResult) : Prop :=
  ∀ c ∈ lsr.candidates, ∃ node, Node.read store c.index_pointer = some node ∧
    c.distance = s.distance_fn (rel.fetch node.heap_item_pointer) query

/-- exDistFn: concrete distance function used by the concrete instances
below (squared euclidean distance). -/
def exDistFn (a b : List Int) : Int := sqDist a b

/-- exHeap: concrete heap relation; row hp holds the one-element vector
[hp]. -/
def exHeap : HeapRelation := { fetch := fun hp => [(hp : Int)] }

/-- exStorage: concrete build-time storage with the heap relation bound. -/
def exStorage : PqCompressionStorage :=
  PqCompressionStorage.new_for_build exHeap 1 exDistFn

/-- exSearchStorage: concrete storage obtained through load_for_search, so
with no heap relation bound. -/
def exSearchStorage : PqCompressionStorage :=
  PqCompressionStorage.load_for_search { pq := some [[[0]]], training := none } exDistFn

/-- exNode1: a tombstoned node with heap pointer 10, one neighbor (node 2)
and stored code [0]. -/
def exNode1 : ArchivedNode :=
  { heap_item_pointer := 10, neighbors := [(2, 0)], pq_vector := [0], deleted := true }

/-- exNode2: a live node with heap pointer 11, no neighbors and stored code
[0]. -/
def exNode2 : ArchivedNode :=
  { heap_item_pointer := 11, neighbors := [], pq_vector := [0], deleted := false }

/-- exStore: concrete two-node store: tombstoned node 1 pointing at live
node 2. -/
def exStore : NodeStore := [(1, exNode1), (2, exNode2)]

/-- exCycleStore: two tombstoned nodes pointing at each other, a tombstone
cycle. -/
def exCycleStore : NodeStore :=
  [(1, ⟨10, [(2, 0)], [0], true⟩), (2, ⟨11, [(1, 0)], [0], true⟩)]

/-- exTable: concrete one-segment distance table with two entries. -/
def exTable : PqDistanceTable := { entries := [[5, 7]] }

/-- exLsrFull: empty working set bound to the Full measure with query [0]. -/
def exLsrFull : ListSearchResult :=
  { seen := [], candidates := [], sdm := some (.Full [0]) }

/-- exLsrPq: empty working set bound to the Pq measure with exTable. -/
def exLsrPq : ListSearchResult :=
  { seen := [], candidates := [], sdm := some (.Pq exTable) }

/-- start_training of the storage (pq_storage.rs lines 207 to 209):
pass-through to the quantizer. -/
def PqCompressionStorage.start_training (s : PqCompressionStorage) :
    PqCompressionStorage :=
  { s with quantizer := s.quantizer.start_training }

/-- add_sample of the storage (pq_storage.rs lines 211 to 213): pass-through
to the quantizer. -/
def PqCompressionStorage.add_sample (s : PqCompressionStorage) (sample : List Int) :
    PqCompressionStorage :=
  { s with quantizer := s.quantizer.add_sample sample }

/-- exLsrFullOut: the working set produced by expanding [1] from exLsrFull
over exStore: the tombstoned node 1 is passed through and only the live
node 2 is a candidate, at its full heap distance. -/
def exLsrFullOut : ListSearchResult :=
  { seen := [2, 1], candidates := [⟨2, 121, [], 11⟩], sdm := some (.Full [0]) }

/-- exLsrPqOut: the working set produced by expanding [1] from exLsrPq over
exStore: in Pq mode the tombstoned node 1 is a candidate at its
table-lookup distance. -/
def exLsrPqOut : ListSearchResult :=
  { seen := [1], candidates := [⟨1, 5, [2], 10⟩], sdm := some (.Pq exTable) }

theorem ListSearchResult.prepare_insert_of_mem {lsr : ListSearchResult} {p : Nat}
    (h : p ∈ lsr.seen) : lsr.prepare_insert p = (false, lsr) := by
  simp [ListSearchResult.prepare_insert, h]

theorem ListSearchResult.prepare_insert_of_not_mem {lsr : ListSearchResult} {p : Nat}
    (h : p ∉ lsr.seen) :
    lsr.prepare_insert p = (true, { lsr with seen := p :: lsr.seen }) := by
  simp [ListSearchResult.prepare_insert, h]

@[simp]
theorem ListSearchResult.insert_neighbor_seen (lsr : ListSearchResult)
    (lsn : ListSearchNeighbor) : (lsr.insert_neighbor lsn).seen = lsr.seen := rfl

@[simp]
theorem ListSearchResult.insert_neighbor_sdm (lsr : ListSearchResult)
    (lsn : ListSearchNeighbor) : (lsr.insert_neighbor lsn).sdm = lsr.sdm := rfl

@[simp]
theorem ListSearchResult.insert_neighbor_candidates (lsr : ListSearchResult)
    (lsn : ListSearchNeighbor) :
    (lsr.insert_neighbor lsn).candidates = lsr.candidates ++ [lsn] := rfl

theorem visit_lsn_internal_zero (s : PqCompressionStorage) (store : NodeStore)
    (gns : GraphNeighborStore) (lsr : ListSearchResult) (ns : List Nat) :
    visit_lsn_internal s store gns 0 lsr ns = .outOfFuel := rfl

theorem visit_lsn_internal_nil (s : PqCompressionStorage) (store : NodeStore)
    (gns : GraphNeighborStore) (fuel : Nat) (lsr : ListSearchResult) :
    visit_lsn_internal s store gns (fuel + 1) lsr [] = .ok lsr := rfl

theorem visit_lsn_internal_dup (s : PqCompressionStorage) (store : NodeStore)
    (gns : GraphNeighborStore) (fuel : Nat) {lsr : ListSearchResult} {p : Nat}
    (rest : List Nat) (h : p ∈ lsr.seen) :
    visit_lsn_internal s store gns (fuel + 1) lsr (p :: rest) =
      visit_lsn_internal s store gns fuel lsr rest := by
  simp only [visit_lsn_internal, ListSearchResult.prepare_insert_of_mem h]

theorem visit_lsn_internal_read_none (s : PqCompressionStorage) (store : NodeStore)
    (gns : GraphNeighborStore) (fuel : Nat) {lsr : ListSearchResult} {p : Nat}
    (rest : List Nat) (h : p ∉ lsr.seen) (hread : Node.read store p = none) :
    visit_lsn_internal s store gns (fuel + 1) lsr (p :: rest) = .fatal := by
  simp only [visit_lsn_internal, ListSearchResult.prepare_insert_of_not_mem h, hread]

theorem visit_lsn_internal_sdm_none (s : PqCompressionStorage) (store : NodeStore)
    (gns : GraphNeighborStore) (fuel : Nat) {lsr : ListSearchResult} {p : Nat}
    (rest : List Nat) (h : p ∉ lsr.seen) {node : ArchivedNode}
    (hread : Node.read store p = some node) (hsdm : lsr.sdm = none) :
    visit_lsn_internal s store gns (fuel + 1) lsr (p :: rest) = .fatal := by
  simp only [visit_lsn_internal, ListSearchResult.prepare_insert_of_not_mem h, hread, hsdm]

theorem visit_lsn_internal_full_deleted (s : PqCompressionStorage) (store : NodeStore)
    (gns : GraphNeighborStore) (fuel : Nat) {lsr : ListSearchResult} {p : Nat}
    (rest : List Nat) (h : p ∉ lsr.seen) {node : ArchivedNode}
    (hread : Node.read store p = some node) {query : List Int}
    (hsdm : lsr.sdm = some (.Full query)) (hdel : node.is_deleted = true) :
    visit_lsn_internal s store gns (fuel + 1) lsr (p :: rest) =
      (match visit_lsn_internal s store gns fuel { lsr with seen := p :: lsr.seen }
          (pvtNeighbors gns p node) with
       | .ok lsr2 => visit_lsn_internal s store gns fuel lsr2 rest
       | .fatal => .fatal
       | .outOfFuel => .outOfFuel) := by
  simp only [visit_lsn_internal, ListSearchResult.prepare_insert_of_not_mem h, hread, hsdm,
    hdel, if_true]

theorem visit_lsn_internal_full_live_dist_none (s : PqCompressionStorage)
    (store : NodeStore) (gns : GraphNeighborStore) (fuel : Nat)
    {lsr : ListSearchResult} {p : Nat} (rest : List Nat) (h : p ∉ lsr.seen)
    {node : ArchivedNode} (hread : Node.read store p = some node) {query : List Int}
    (hsdm : lsr.sdm = some (.Full query)) (hdel : node.is_deleted = false)
    (hdist : calculate_full_distance s node.heap_item_pointer query = none) :
    visit_lsn_internal s store gns (fuel + 1) lsr (p :: rest) = .fatal := by
  simp only [visit_lsn_internal, ListSearchResult.prepare_insert_of_not_mem h, hread, hsdm,
    hdel, if_false, hdist, Bool.false_eq_true]

theorem visit_lsn_internal_full_live_dist_some (s : PqCompressionStorage)
    (store : NodeStore) (gns : GraphNeighborStore) (fuel : Nat)
    {lsr : ListSearchResult} {p : Nat} (rest : List Nat) (h : p ∉ lsr.seen)
    {node : ArchivedNode} (hread : Node.read store p = some node) {query : List Int}
    (hsdm : lsr.sdm = some (.Full query)) (hdel : node.is_deleted = false) {d : Int}
    (hdist : calculate_full_distance s node.heap_item_pointer query = some d) :
    visit_lsn_internal s store gns (fuel + 1) lsr (p :: rest) =
      visit_lsn_internal s store gns fuel
        (ListSearchResult.insert_neighbor { lsr with seen := p :: lsr.seen }
          ⟨p, d, pvtNeighbors gns p node, node.heap_item_pointer⟩) rest := by
  simp only [visit_lsn_internal, ListSearchResult.prepare_insert_of_not_mem h, hread, hsdm,
    hdel, if_false, hdist, Bool.false_eq_true]

theorem visit_lsn_internal_pq (s : PqCompressionStorage) (store : NodeStore)
    (gns : GraphNeighborStore) (fuel : Nat) {lsr : ListSearchResult} {p : Nat}
    (rest : List Nat) (h : p ∉ lsr.seen) {node : ArchivedNode}
    (hread : Node.read store p = some node) {table : PqDistanceTable}
    (hsdm : lsr.sdm = some (.Pq table)) :
    visit_lsn_internal s store gns (fuel + 1) lsr (p :: rest) =
      visit_lsn_internal s store gns fuel
        (ListSearchResult.insert_neighbor { lsr with seen := p :: lsr.seen }
          ⟨p, PqSearchDistanceMeasure.calculate_pq_distance table node.pq_vector,
           pvtNeighbors gns p node, node.heap_item_pointer⟩) rest := by
  simp only [visit_lsn_internal, ListSearchResult.prepare_insert_of_not_mem h, hread, hsdm]

theorem visit_lsn_internal_seen_mono (s : PqCompressionStorage) (store : NodeStore)
    (gns : GraphNeighborStore) :
    ∀ (fuel : Nat) (lsr : ListSearchResult) (ns : List Nat) (lsr' : ListSearchResult),
      visit_lsn_internal s store gns fuel lsr ns = .ok lsr' → lsr.seen ⊆ lsr'.seen := by
  intro fuel
  induction fuel with
  | zero =>
    intro lsr ns lsr' h
    rw [visit_lsn_internal_zero] at h
    exact absurd h (by simp)
  | succ fuel ih =>
    intro lsr ns lsr' h
    cases ns with
    | nil =>
      rw [visit_lsn_internal_nil] at h
      cases h
      exact List.Subset.refl _
    | cons p rest =>
      by_cases hp : p ∈ lsr.seen
      · rw [visit_lsn_internal_dup s store gns fuel rest hp] at h
        exact ih lsr rest lsr' h
      · cases hread : Node.read store p with
        | none =>
          rw [visit_lsn_internal_read_none s store gns fuel rest hp hread] at h
          exact absurd h (by simp)
        | some node =>
          cases hsdm : lsr.sdm with
          | none =>
            rw [visit_lsn_internal_sdm_none s store gns fuel rest hp hread hsdm] at h
            exact absurd h (by simp)
          | some sdm =>
            cases sdm with
            | Full query =>
              cases hdel : node.is_deleted with
              | true =>
                rw [visit_lsn_internal_full_deleted s store gns fuel rest hp hread hsdm hdel]
                  at h
                cases hin : visit_lsn_internal s store gns fuel
                    { lsr with seen := p :: lsr.seen } (pvtNeighbors gns p node) with
                | ok lsr2 =>
                  rw [hin] at h
                  have h1 := ih _ _ _ hin
                  have h2 := ih _ _ _ h
                  exact fun a ha => h2 (h1 (List.mem_cons_of_mem _ ha))
                | fatal =>
                  rw [hin] at h
                  exact absurd h (by simp)
                | outOfFuel =>
                  rw [hin] at h
                  exact absurd h (by simp)
              | false =>
                cases hdist : calculate_full_distance s node.heap_item_pointer query with
                | none =>
                  rw [visit_lsn_internal_full_live_dist_none s store gns fuel rest hp hread
                    hsdm hdel hdist] at h
                  exact absurd h (by simp)
                | some d =>
                  rw [visit_lsn_internal_full_live_dist_some s store gns fuel rest hp hread
                    hsdm hdel hdist] at h
                  have h1 := ih _ _ _ h
                  exact fun a ha => h1 (List.mem_cons_of_mem _ ha)
            | Pq table =>
              rw [visit_lsn_internal_pq s store gns fuel rest hp hread hsdm] at h
              have h1 := ih _ _ _ h
              exact fun a ha => h1 (List.mem_cons_of_mem _ ha)

theorem visit_lsn_internal_sdm_eq (s : PqCompressionStorage) (store : NodeStore)
    (gns : GraphNeighborStore) :
    ∀ (fuel : Nat) (lsr : ListSearchResult) (ns : List Nat) (lsr' : ListSearchResult),
      visit_lsn_internal s store gns fuel lsr ns = .ok lsr' → lsr'.sdm = lsr.sdm := by
  intro fuel
  induction fuel with
  | zero =>
    intro lsr ns lsr' h
    rw [visit_lsn_internal_zero] at h
    exact absurd h (by simp)
  | succ fuel ih =>
    intro lsr ns lsr' h
    cases ns with
    | nil =>
      rw [visit_lsn_internal_nil] at h
      cases h
      rfl
    | cons p rest =>
      by_cases hp : p ∈ lsr.seen
      · rw [visit_lsn_internal_dup s store gns fuel rest hp] at h
        exact ih lsr rest lsr' h
      · cases hread : Node.read store p with
        | none =>
          rw [visit_lsn_internal_read_none s store gns fuel rest hp hread] at h
          exact absurd h (by simp)
        | some node =>
          cases hsdm : lsr.sdm with
          | none =>
            rw [visit_lsn_internal_sdm_none s store gns fuel rest hp hread hsdm] at h
            exact absurd h (by simp)
          | some sdm =>
            cases sdm with
            | Full query =>
              cases hdel : node.is_deleted with
              | true =>
                rw [visit_lsn_internal_full_deleted s store gns fuel rest hp hread hsdm hdel]
                  at h
                cases hin : visit_lsn_internal s store gns fuel
                    { lsr with seen := p :: lsr.seen } (pvtNeighbors gns p node) with
                | ok lsr2 =>
                  rw [hin] at h
                  have h1 := ih _ _ _ hin
                  have h2 := ih _ _ _ h
                  rw [h2, h1]
                  exact hsdm
                | fatal =>
                  rw [hin] at h
                  exact absurd h (by simp)
                | outOfFuel =>
                  rw [hin] at h
                  exact absurd h (by simp)
              | false =>
                cases hdist : calculate_full_distance s node.heap_item_pointer query with
                | none =>
                  rw [visit_lsn_internal_full_live_dist_none s store gns fuel rest hp hread
                    hsdm hdel hdist] at h
                  exact absurd h (by simp)
                | some d =>
                  rw [visit_lsn_internal_full_live_dist_some s store gns fuel rest hp hread
                    hsdm hdel hdist] at h
                  have h1 := ih _ _ _ h
                  rw [h1]
                  exact hsdm
            | Pq table =>
              rw [visit_lsn_internal_pq s store gns fuel rest hp hread hsdm] at h
              have h1 := ih _ _ _ h
              rw [h1]
              exact hsdm

theorem read_some_mem_storeKeys {store : NodeStore} {p : Nat} {node : ArchivedNode}
    (h : Node.read store p = some node) : p ∈ storeKeys store := by
  unfold Node.read at h
  cases hf : List.find? (fun e => e.1 = p) store with
  | none => rw [hf] at h; exact absurd h (by simp)
  | some e =>
    have hmem := List.mem_of_find?_eq_some hf
    have hkey := List.find?_some hf
    have hkey2 : e.1 = p := by simpa using hkey
    unfold storeKeys
    rw [List.mem_toFinset]
    exact List.mem_map.mpr ⟨e, hmem, hkey2⟩

theorem read_some_entry {store : NodeStore} {p : Nat} {node : ArchivedNode}
    (h : Node.read store p = some node) : (p, node) ∈ store := by
  unfold Node.read at h
  cases hf : List.find? (fun e => e.1 = p) store with
  | none => rw [hf] at h; exact absurd h (by simp)
  | some e =>
    rw [hf] at h
    have hmem := List.mem_of_find?_eq_some hf
    have hkey : e.1 = p := by simpa using List.find?_some hf
    have hval : e.2 = node := by simpa using h
    have : e = (p, node) := by
      cases e
      simp only [Prod.mk.injEq]
      exact ⟨hkey, hval⟩
    rw [← this]
    exact hmem

theorem le_foldl_max {α : Type} (f : α → Nat) :
    ∀ (l : List α) (a : Nat),
      a ≤ l.foldl (fun acc e => max acc (f e)) a ∧
        ∀ x ∈ l, f x ≤ l.foldl (fun acc e => max acc (f e)) a := by
  intro l
  induction l with
  | nil => intro a; exact ⟨Nat.le_refl a, by simp⟩
  | cons y t ih =>
    intro a
    constructor
    · exact Nat.le_trans (Nat.le_max_left a (f y)) (ih (max a (f y))).1
    · intro x hx
      cases List.mem_cons.mp hx with
      | inl hxy =>
        rw [hxy]
        exact Nat.le_trans (Nat.le_max_right a (f y)) (ih (max a (f y))).1
      | inr hxt =>
        exact (ih (max a (f y))).2 x hxt

theorem pvtNeighbors_length_le {store : NodeStore} (gns : GraphNeighborStore)
    {p : Nat} {node : ArchivedNode} (h : Node.read store p = some node) :
    (pvtNeighbors gns p node).length ≤ nbrLenBound store gns := by
  cases gns with
  | disk =>
    have hmem := read_some_entry h
    have hle := (le_foldl_max (fun e => e.2.neighbors.length) store 0).2 _ hmem
    simp only [pvtNeighbors, nbrLenBound, List.length_map]
    exact Nat.le_trans hle (Nat.le_max_left _ _)
  | builder m =>
    simp only [pvtNeighbors, nbrLenBound]
    cases hf : List.find? (fun e => e.1 = p) m with
    | none => simp [hf]
    | some e =>
      have hmem := List.mem_of_find?_eq_some hf
      have hle := (le_foldl_max (fun e => e.2.length) m 0).2 _ hmem
      simp only [hf, Option.map_some', Option.getD_some]
      exact Nat.le_trans hle (Nat.le_max_right _ _)

@[simp]
theorem unseenCount_insert_neighbor (store : NodeStore) (lsr : ListSearchResult)
    (lsn : ListSearchNeighbor) :
    unseenCount store (lsr.insert_neighbor lsn) = unseenCount store lsr := rfl

theorem unseenCount_cons {store : NodeStore} {lsr : ListSearchResult} {p : Nat}
    (hmem : p ∈ storeKeys store) (hp : p ∉ lsr.seen) :
    unseenCount store { lsr with seen := p :: lsr.seen } + 1 = unseenCount store lsr := by
  unfold unseenCount
  simp only [List.toFinset_cons]
  rw [Finset.sdiff_insert]
  exact Finset.card_erase_add_one
    (Finset.mem_sdiff.mpr ⟨hmem, fun hc => hp (List.mem_toFinset.mp hc)⟩)

theorem unseenCount_le_of_subset {store : NodeStore} {lsr1 lsr2 : ListSearchResult}
    (h : lsr1.seen ⊆ lsr2.seen) : unseenCount store lsr2 ≤ unseenCount store lsr1 := by
  unfold unseenCount
  apply Finset.card_le_card
  apply Finset.sdiff_subset_sdiff (Finset.Subset.refl _)
  intro x hx
  rw [List.mem_toFinset] at hx ⊢
  exact h hx

theorem visit_lsn_internal_enough_fuel (s : PqCompressionStorage) (store : NodeStore)
    (gns : GraphNeighborStore) :
    ∀ (fuel : Nat) (lsr : ListSearchResult) (ns : List Nat),
      visitFuel store gns lsr ns < fuel →
      visit_lsn_internal s store gns fuel lsr ns ≠ .outOfFuel := by
  intro fuel
  induction fuel with
  | zero =>
    intro lsr ns h
    exact absurd h (Nat.not_lt_zero _)
  | succ fuel ih =>
    intro lsr ns h
    cases ns with
    | nil =>
      rw [visit_lsn_internal_nil]
      simp
    | cons p rest =>
      simp only [visitFuel, List.length_cons] at h
      by_cases hp : p ∈ lsr.seen
      · rw [visit_lsn_internal_dup s store gns fuel rest hp]
        apply ih
        simp only [visitFuel]
        set C := unseenCount store lsr * (nbrLenBound store gns + 1) with hC
        omega
      · cases hread : Node.read store p with
        | none =>
          rw [visit_lsn_internal_read_none s store gns fuel rest hp hread]
          simp
        | some node =>
          have hkey := read_some_mem_storeKeys hread
          have hU := unseenCount_cons hkey hp
          have hmul : unseenCount store lsr * (nbrLenBound store gns + 1) =
              unseenCount store { lsr with seen := p :: lsr.seen } *
                (nbrLenBound store gns + 1) + (nbrLenBound store gns + 1) := by
            rw [← hU]
            ring
          have hlen := pvtNeighbors_length_le gns hread
          cases hsdm : lsr.sdm with
          | none =>
            rw [visit_lsn_internal_sdm_none s store gns fuel rest hp hread hsdm]
            simp
          | some sdm =>
            cases sdm with
            | Full query =>
              cases hdel : node.is_deleted with
              | true =>
                rw [visit_lsn_internal_full_deleted s store gns fuel rest hp hread hsdm hdel]
                have hinner : visit_lsn_internal s store gns fuel
                    { lsr with seen := p :: lsr.seen } (pvtNeighbors gns p node) ≠
                      .outOfFuel := by
                  apply ih
                  simp only [visitFuel]
                  set B := nbrLenBound store gns with hB
                  set A := unseenCount store { lsr with seen := p :: lsr.seen } * (B + 1)
                    with hA
                  set C := unseenCount store lsr * (B + 1) with hC
                  omega
                cases hin : visit_lsn_internal s store gns fuel
                    { lsr with seen := p :: lsr.seen } (pvtNeighbors gns p node) with
                | ok lsr2 =>
                  have hsub := visit_lsn_internal_seen_mono s store gns fuel _ _ _ hin
                  have hle : unseenCount store lsr2 ≤
                      unseenCount store { lsr with seen := p :: lsr.seen } :=
                    unseenCount_le_of_subset hsub
                  have hmul2 : unseenCount store lsr2 * (nbrLenBound store gns + 1) ≤
                      unseenCount store { lsr with seen := p :: lsr.seen } *
                        (nbrLenBound store gns + 1) :=
                    Nat.mul_le_mul_right _ hle
                  show visit_lsn_internal s store gns fuel lsr2 rest ≠ .outOfFuel
                  apply ih
                  simp only [visitFuel]
                  set B := nbrLenBound store gns with hB
                  set A := unseenCount store { lsr with seen := p :: lsr.seen } * (B + 1)
                    with hA
                  set C := unseenCount store lsr * (B + 1) with hC
                  set D := unseenCount store lsr2 * (B + 1) with hD
                  omega
                | fatal => simp
                | outOfFuel => exact absurd hin hinner
              | false =>
                cases hdist : calculate_full_distance s node.heap_item_pointer query with
                | none =>
                  rw [visit_lsn_internal_full_live_dist_none s store gns fuel rest hp hread
                    hsdm hdel hdist]
                  simp
                | some d =>
                  rw [visit_lsn_internal_full_live_dist_some s store gns fuel rest hp hread
                    hsdm hdel hdist]
                  apply ih
                  simp only [visitFuel, unseenCount_insert_neighbor]
                  set B := nbrLenBound store gns with hB
                  set A := unseenCount store { lsr with seen := p :: lsr.seen } * (B + 1)
                    with hA
                  set C := unseenCount store lsr * (B + 1) with hC
                  omega
            | Pq table =>
              rw [visit_lsn_internal_pq s store gns fuel rest hp hread hsdm]
              apply ih
              simp only [visitFuel, unseenCount_insert_neighbor]
              set B := nbrLenBound store gns with hB
              set A := unseenCount store { lsr with seen := p :: lsr.seen } * (B + 1)
                with hA
              set C := unseenCount store lsr * (B + 1) with hC
              omega

theorem candidatesSeen_cons {lsr : ListSearchResult} {p : Nat} (h : candidatesSeen lsr) :
    candidatesSeen { lsr with seen := p :: lsr.seen } :=
  fun c hc => List.mem_cons_of_mem _ (h c hc)

theorem insert_step_seen {lsr : ListSearchResult} {p : Nat}
    (hseen : candidatesSeen lsr) (lsn : ListSearchNeighbor)
    (hptr : lsn.index_pointer = p) :
    candidatesSeen
      (ListSearchResult.insert_neighbor { lsr with seen := p :: lsr.seen } lsn) := by
  intro c hc
  simp only [ListSearchResult.insert_neighbor_candidates] at hc
  rcases List.mem_append.mp hc with hco | hcl
  · exact List.mem_cons_of_mem _ (hseen c hco)
  · have hce : c = lsn := by simpa using hcl
    rw [hce, hptr]
    exact List.mem_cons_self _ _

theorem insert_step_nodup {lsr : ListSearchResult} {p : Nat} (hp : p ∉ lsr.seen)
    (hseen : candidatesSeen lsr) (hnd : noDupCandidates lsr)
    (lsn : ListSearchNeighbor) (hptr : lsn.index_pointer = p) :
    noDupCandidates
      (ListSearchResult.insert_neighbor { lsr with seen := p :: lsr.seen } lsn) := by
  unfold noDupCandidates at hnd ⊢
  simp only [ListSearchResult.insert_neighbor_candidates, List.map_append, List.map_cons,
    List.map_nil]
  rw [List.nodup_append]
  refine ⟨hnd, List.nodup_singleton _, ?_⟩
  intro a ha hb
  have hap : a = p := by
    rw [List.mem_singleton] at hb
    rw [hb, hptr]
  rcases List.mem_map.mp ha with ⟨c, hc, hcp⟩
  exact hp (hap ▸ hcp ▸ hseen c hc)

theorem visit_lsn_internal_inv (s : PqCompressionStorage) (store : NodeStore)
    (gns : GraphNeighborStore) :
    ∀ (fuel : Nat) (lsr : ListSearchResult) (ns : List Nat) (lsr' : ListSearchResult),
      candidatesSeen lsr → noDupCandidates lsr →
      visit_lsn_internal s store gns fuel lsr ns = .ok lsr' →
      candidatesSeen lsr' ∧ noDupCandidates lsr' := by
  intro fuel
  induction fuel with
  | zero =>
    intro lsr ns lsr' _ _ h
    rw [visit_lsn_internal_zero] at h
    exact absurd h (by simp)
  | succ fuel ih =>
    intro lsr ns lsr' hseen hnd h
    cases ns with
    | nil =>
      rw [visit_lsn_internal_nil] at h
      cases h
      exact ⟨hseen, hnd⟩
    | cons p rest =>
      by_cases hp : p ∈ lsr.seen
      · rw [visit_lsn_internal_dup s store gns fuel rest hp] at h
        exact ih lsr rest lsr' hseen hnd h
      · cases hread : Node.read store p with
        | none =>
          rw [visit_lsn_internal_read_none s store gns fuel rest hp hread] at h
          exact absurd h (by simp)
        | some node =>
          cases hsdm : lsr.sdm with
          | none =>
            rw [visit_lsn_internal_sdm_none s store gns fuel rest hp hread hsdm] at h
            exact absurd h (by simp)
          | some sdm =>
            cases sdm with
            | Full query =>
              cases hdel : node.is_deleted with
              | true =>
                rw [visit_lsn_internal_full_deleted s store gns fuel rest hp hread hsdm hdel]
                  at h
                cases hin : visit_lsn_internal s store gns fuel
                    { lsr with seen := p :: lsr.seen } (pvtNeighbors gns p node) with
                | ok lsr2 =>
                  rw [hin] at h
                  have h1 := ih _ _ _ (candidatesSeen_cons hseen) hnd hin
                  exact ih _ _ _ h1.1 h1.2 h
                | fatal =>
                  rw [hin] at h
                  exact absurd h (by simp)
                | outOfFuel =>
                  rw [hin] at h
                  exact absurd h (by simp)
              | false =>
                cases hdist : calculate_full_distance s node.heap_item_pointer query with
                | none =>
                  rw [visit_lsn_internal_full_live_dist_none s store gns fuel rest hp hread
                    hsdm hdel hdist] at h
                  exact absurd h (by simp)
                | some d =>
                  rw [visit_lsn_internal_full_live_dist_some s store gns fuel rest hp hread
                    hsdm hdel hdist] at h
                  exact ih _ _ _
                    (insert_step_seen hseen
                      ⟨p, d, pvtNeighbors gns p node, node.heap_item_pointer⟩ rfl)
                    (insert_step_nodup hp hseen hnd
                      ⟨p, d, pvtNeighbors gns p node, node.heap_item_pointer⟩ rfl) h
            | Pq table =>
              rw [visit_lsn_internal_pq s store gns fuel rest hp hread hsdm] at h
              exact ih _ _ _
                (insert_step_seen hseen
                  ⟨p, PqSearchDistanceMeasure.calculate_pq_distance table node.pq_vector,
                   pvtNeighbors gns p node, node.heap_item_pointer⟩ rfl)
                (insert_step_nodup hp hseen hnd
                  ⟨p, PqSearchDistanceMeasure.calculate_pq_distance table node.pq_vector,
                   pvtNeighbors gns p node, node.heap_item_pointer⟩ rfl) h

theorem insert_step_live {store : NodeStore} {lsr : ListSearchResult} {p : Nat}
    {node : ArchivedNode} (hread : Node.read store p = some node)
    (hdel : node.is_deleted = false) (hlive : candidatesLive store lsr)
    (d : Int) (nbrs : List Nat) (hpp : Nat) :
    candidatesLive store
      (ListSearchResult.insert_neighbor { lsr with seen := p :: lsr.seen }
        ⟨p, d, nbrs, hpp⟩) := by
  intro c hc node2 hread2
  simp only [ListSearchResult.insert_neighbor_candidates] at hc
  rcases List.mem_append.mp hc with hco | hcl
  · exact hlive c hco node2 hread2
  · have hce : c = ⟨p, d, nbrs, hpp⟩ := by simpa using hcl
    rw [hce] at hread2
    have h2 : Node.read store p = some node2 := hread2
    rw [hread] at h2
    have h3 : node = node2 := Option.some.inj h2
    rw [← h3]
    exact hdel

theorem visit_lsn_internal_live (s : PqCompressionStorage) (store : NodeStore)
    (gns : GraphNeighborStore) :
    ∀ (fuel : Nat) (lsr : ListSearchResult) (ns : List Nat) (lsr' : ListSearchResult)
      (query : List Int), lsr.sdm = some (.Full query) →
      candidatesLive store lsr →
      visit_lsn_internal s store gns fuel lsr ns = .ok lsr' →
      candidatesLive store lsr' := by
  intro fuel
  induction fuel with
  | zero =>
    intro lsr ns lsr' query _ _ h
    rw [visit_lsn_internal_zero] at h
    exact absurd h (by simp)
  | succ fuel ih =>
    intro lsr ns lsr' query hsdm hlive h
    cases ns with
    | nil =>
      rw [visit_lsn_internal_nil] at h
      cases h
      exact hlive
    | cons p rest =>
      by_cases hp : p ∈ lsr.seen
      · rw [visit_lsn_internal_dup s store gns fuel rest hp] at h
        exact ih lsr rest lsr' query hsdm hlive h
      · cases hread : Node.read store p with
        | none =>
          rw [visit_lsn_internal_read_none s store gns fuel rest hp hread] at h
          exact absurd h (by simp)
        | some node =>
          cases hdel : node.is_deleted with
          | true =>
            rw [visit_lsn_internal_full_deleted s store gns fuel rest hp hread hsdm hdel]
              at h
            cases hin : visit_lsn_internal s store gns fuel
                { lsr with seen := p :: lsr.seen } (pvtNeighbors gns p node) with
            | ok lsr2 =>
              rw [hin] at h
              have hsdm1 : ({ lsr with seen := p :: lsr.seen } : ListSearchResult).sdm =
                  some (.Full query) := hsdm
              have hlive2 := ih _ _ _ query hsdm1 hlive hin
              have hsdm2 : lsr2.sdm = some (.Full query) := by
                rw [visit_lsn_internal_sdm_eq s store gns fuel _ _ _ hin]
                exact hsdm
              exact ih _ _ _ query hsdm2 hlive2 h
            | fatal =>
              rw [hin] at h
              exact absurd h (by simp)
            | outOfFuel =>
              rw [hin] at h
              exact absurd h (by simp)
          | false =>
            cases hdist : calculate_full_distance s node.heap_item_pointer query with
            | none =>
              rw [visit_lsn_internal_full_live_dist_none s store gns fuel rest hp hread
                hsdm hdel hdist] at h
              exact absurd h (by simp)
            | some d =>
              rw [visit_lsn_internal_full_live_dist_some s store gns fuel rest hp hread
                hsdm hdel hdist] at h
              have hins := insert_step_live hread hdel hlive d (pvtNeighbors gns p node)
                node.heap_item_pointer
              have hsdmI : (ListSearchResult.insert_neighbor
                  { lsr with seen := p :: lsr.seen }
                  ⟨p, d, pvtNeighbors gns p node, node.heap_item_pointer⟩).sdm =
                  some (.Full query) := hsdm
              exact ih _ _ _ query hsdmI hins h

theorem calculate_full_distance_eq {s : PqCompressionStorage} {rel : HeapRelation}
    {attr : Nat} (hrel : s.heap_rel = some rel) (hattr : s.heap_attr = some attr)
    (hp : Nat) (query : List Int) :
    calculate_full_distance s hp query =
      some (s.distance_fn (rel.fetch hp) query) := by
  unfold calculate_full_distance PqCompressionStorage.get_heap_table_slot_from_heap_pointer
  rw [hrel, hattr]
  rfl

theorem insert_step_full_dist {s : PqCompressionStorage} {store : NodeStore}
    {rel : HeapRelation} {query : List Int} {lsr : ListSearchResult} {p : Nat}
    {node : ArchivedNode} {d : Int} (hread : Node.read store p = some node)
    (hd : d = s.distance_fn (rel.fetch node.heap_item_pointer) query)
    (hdi : candidatesFullDist s store rel query lsr) (nbrs : List Nat) (hpp : Nat) :
    candidatesFullDist s store rel query
      (ListSearchResult.insert_neighbor { lsr with seen := p :: lsr.seen }
        ⟨p, d, nbrs, hpp⟩) := by
  intro c hc
  simp only [ListSearchResult.insert_neighbor_candidates] at hc
  rcases List.mem_append.mp hc with hco | hcl
  · exact hdi c hco
  · have hce : c = ⟨p, d, nbrs, hpp⟩ := by simpa using hcl
    rw [hce]
    exact ⟨node, hread, hd⟩

theorem visit_lsn_internal_full_dist (s : PqCompressionStorage) (store : NodeStore)
    (gns : GraphNeighborStore) {rel : HeapRelation} {attr : Nat}
    (hrel : s.heap_rel = some rel) (hattr : s.heap_attr = some attr) :
    ∀ (fuel : Nat) (lsr : ListSearchResult) (ns : List Nat) (lsr' : ListSearchResult)
      (query : List Int), lsr.sdm = some (.Full query) →
      candidatesFullDist s store rel query lsr →
      visit_lsn_internal s store gns fuel lsr ns = .ok lsr' →
      candidatesFullDist s store rel query lsr' := by
  intro fuel
  induction fuel with
  | zero =>
    intro lsr ns lsr' query _ _ h
    rw [visit_lsn_internal_zero] at h
    exact absurd h (by simp)
  | succ fuel ih =>
    intro lsr ns lsr' query hsdm hdi h
    cases ns with
    | nil =>
      rw [visit_lsn_internal_nil] at h
      cases h
      exact hdi
    | cons p rest =>
      by_cases hp : p ∈ lsr.seen
      · rw [visit_lsn_internal_dup s store gns fuel rest hp] at h
        exact ih lsr rest lsr' query hsdm hdi h
      · cases hread : Node.read store p with
        | none =>
          rw [visit_lsn_internal_read_none s store gns fuel rest hp hread] at h
          exact absurd h (by simp)
        | some node =>
          cases hdel : node.is_deleted with
          | true =>
            rw [visit_lsn_internal_full_deleted s store gns fuel rest hp hread hsdm hdel]
              at h
            cases hin : visit_lsn_internal s store gns fuel
                { lsr with seen := p :: lsr.seen } (pvtNeighbors gns p node) with
            | ok lsr2 =>
              rw [hin] at h
              have hsdm1 : ({ lsr with seen := p :: lsr.seen } : ListSearchResult).sdm =
                  some (.Full query) := hsdm
              have hdi2 := ih _ _ _ query hsdm1 hdi hin
              have hsdm2 : lsr2.sdm = some (.Full query) := by
                rw [visit_lsn_internal_sdm_eq s store gns fuel _ _ _ hin]
                exact hsdm
              exact ih _ _ _ query hsdm2 hdi2 h
            | fatal =>
              rw [hin] at h
              exact absurd h (by simp)
            | outOfFuel =>
              rw [hin] at h
              exact absurd h (by simp)
          | false =>
            cases hdist : calculate_full_distance s node.heap_item_pointer query with
            | none =>
              rw [visit_lsn_internal_full_live_dist_none s store gns fuel rest hp hread
                hsdm hdel hdist] at h
              exact absurd h (by simp)
            | some d =>
              rw [visit_lsn_internal_full_live_dist_some s store gns fuel rest hp hread
                hsdm hdel hdist] at h
              have hdeq : d = s.distance_fn (rel.fetch node.heap_item_pointer) query := by
                rw [calculate_full_distance_eq hrel hattr node.heap_item_pointer query]
                  at hdist
                exact (Option.some.inj hdist).symm
              have hins := insert_step_full_dist hread hdeq hdi (pvtNeighbors gns p node)
                node.heap_item_pointer
              have hsdmI : (ListSearchResult.insert_neighbor
                  { lsr with seen := p :: lsr.seen }
                  ⟨p, d, pvtNeighbors gns p node, node.heap_item_pointer⟩).sdm =
                  some (.Full query) := hsdm
              exact ih _ _ _ query hsdmI hins h

theorem Node.read_write_self : ∀ (store : NodeStore) (p : Nat) (node n : ArchivedNode),
    Node.read store p = some node → Node.read (Node.write store p n) p = some n := by
  intro store
  induction store with
  | nil =>
    intro p node n h
    simp [Node.read] at h
  | cons e t ih =>
    intro p node n h
    by_cases hep : e.1 = p
    · simp [Node.read, Node.write, List.find?, hep]
    · have h2 : Node.read t p = some node := by
        simpa [Node.read, List.find?, hep] using h
      have h3 := ih p node n h2
      simpa [Node.read, Node.write, List.find?, hep] using h3

theorem Node.read_write_other : ∀ (store : NodeStore) (p q : Nat) (n : ArchivedNode),
    q ≠ p → Node.read (Node.write store p n) q = Node.read store q := by
  intro store
  induction store with
  | nil =>
    intro p q n hqp
    rfl
  | cons e t ih =>
    intro p q n hqp
    have h3 := ih p q n hqp
    by_cases hep : e.1 = p
    · have hpq : ¬ (p = q) := fun hh => hqp hh.symm
      have heq : ¬ (e.1 = q) := by
        rw [hep]
        exact hpq
      simpa [Node.read, Node.write, List.find?, hep, hpq, heq] using h3
    · by_cases heq : e.1 = q
      · simp [Node.read, Node.write, List.find?, hep, heq, hqp]
      · simpa [Node.read, Node.write, List.find?, hep, heq] using h3

/-- C6: get_search_distance_measure returns the Full variant holding the raw
query vector exactly when calc_distance_with_quantizer is false, and the Pq
variant holding the distance table built by the quantizer from the query and
the configured distance function exactly when it is true. -/
theorem C6_get_search_distance_measure (s : PqCompressionStorage) (query : List Int)
    (calc_distance_with_quantizer : Bool) :
    s.get_search_distance_measure query calc_distance_with_quantizer =
      if calc_distance_with_quantizer then
        .Pq (s.quantizer.get_distance_table query s.distance_fn)
      else .Full query := by
  cases calc_distance_with_quantizer <;> rfl

/-- C5: finishing training when zero samples were added since start_training
is a reported fatal error: the quantizer training step fails and no
quantizer metadata is written (the storage finish_training produces
nothing). -/
theorem C5_finish_training_zero_samples_fails (s : PqCompressionStorage)
    (h : s.quantizer.training = some []) :
    PqCompressionStorage.finish_training s = none ∧
      s.quantizer.finish_training = none := by
  have hq : s.quantizer.finish_training = none := by
    unfold PqQuantizer.finish_training
    rw [h]
    rfl
  refine ⟨?_, hq⟩
  unfold PqCompressionStorage.finish_training
  rw [hq]

/-- C5 witness: a build-time storage right after start_training has an empty
sample accumulator and its finish_training fails. -/
theorem C5_finish_training_zero_samples_fails_witness :
    (PqCompressionStorage.start_training exStorage).quantizer.training = some [] ∧
    (PqCompressionStorage.finish_training (PqCompressionStorage.start_training exStorage) =
        none ∧
      (PqCompressionStorage.start_training exStorage).quantizer.finish_training = none) :=
  ⟨rfl, C5_finish_training_zero_samples_fails (PqCompressionStorage.start_training exStorage)
    rfl⟩

/-- C4 counterexample: a neighbor pointer that does not resolve (pointer 5)
makes the whole expansion fatal, even though the next neighbor in the list
(pointer 2) resolves to a live node; the code does not skip the broken edge
and continue. -/
theorem C4_counterexample :
    Node.read exStore 5 = none ∧ Node.read exStore 2 = some exNode2 ∧
    exNode2.is_deleted = false ∧
    visit_lsn_internal exStorage exStore .disk 5 exLsrFull [5, 2] = .fatal :=
  ⟨rfl, rfl, rfl, rfl⟩

/-- C4 as amended: a neighbor ItemPointer that fails to resolve to a
readable node makes the whole search call fail (the node-read failure
propagates); it is not skipped, and the remaining neighbors are not
processed. -/
theorem C4_unresolvable_neighbor_aborts (s : PqCompressionStorage) (store : NodeStore)
    (gns : GraphNeighborStore) (fuel : Nat) (lsr : ListSearchResult) (p : Nat)
    (rest : List Nat) (hp : p ∉ lsr.seen) (hread : Node.read store p = none) :
    visit_lsn_internal s store gns (fuel + 1) lsr (p :: rest) = .fatal :=
  visit_lsn_internal_read_none s store gns fuel rest hp hread

/-- C4 witness: the amended statement at the concrete store, with the
unresolvable pointer 5 followed by the resolvable pointer 2. -/
theorem C4_unresolvable_neighbor_aborts_witness :
    visit_lsn_internal exStorage exStore .disk (4 + 1) exLsrFull (5 :: [2]) = .fatal :=
  C4_unresolvable_neighbor_aborts exStorage exStore .disk 4 exLsrFull 5 [2]
    (List.not_mem_nil 5) rfl

/-- C3 counterexample: with the Pq (quantized) distance measure, an entry
point whose node is tombstoned does not fail: create_lsn_for_init_id scores
it from its stored compressed code and returns it, so the fatal-condition
behavior does not hold for the Pq mode. -/
theorem C3_counterexample :
    Node.read exStore 1 = some exNode1 ∧ exNode1.is_deleted = true ∧
    create_lsn_for_init_id exStorage exStore .disk exLsrPq 1 =
      .ok ({ seen := [1], candidates := [], sdm := some (.Pq exTable) },
        ⟨1, PqSearchDistanceMeasure.calculate_pq_distance exTable exNode1.pq_vector,
         [2], 10⟩) :=
  ⟨rfl, rfl, rfl⟩

/-- C3 as amended: only when the search distance measure is Full does
create_lsn_for_init_id fail with a fatal condition on a tombstoned entry
point, before computing any distance from the node stored data; in Pq mode
the entry point is scored from its compressed code. -/
theorem C3_full_mode_deleted_init_fatal (s : PqCompressionStorage) (store : NodeStore)
    (gns : GraphNeighborStore) (lsr : ListSearchResult) (p : Nat) (query : List Int)
    (node : ArchivedNode) (hsdm : lsr.sdm = some (.Full query))
    (hread : Node.read store p = some node) (hdel : node.is_deleted = true) :
    create_lsn_for_init_id s store gns lsr p = .fatal := by
  unfold create_lsn_for_init_id
  by_cases hp : p ∈ lsr.seen
  · rw [ListSearchResult.prepare_insert_of_mem hp]
  · rw [ListSearchResult.prepare_insert_of_not_mem hp, hread]
    simp only [hsdm, hdel, if_true]

/-- C3 witness: the amended statement at the concrete store, Full measure,
tombstoned entry point 1. -/
theorem C3_full_mode_deleted_init_fatal_witness :
    create_lsn_for_init_id exStorage exStore .disk exLsrFull 1 = .fatal :=
  C3_full_mode_deleted_init_fatal exStorage exStore .disk exLsrFull 1 [0] exNode1
    rfl rfl rfl

/-- C10: visit_lsn_internal terminates on every finite graph, tombstone
cycles included: the recursive pass-through into a deleted neighbor happens
only after its pointer is registered in the working set, so fuel equal to
the pending-list length plus (number of unseen stored nodes) times (one
plus the neighbor-list bound) is never exhausted. -/
theorem C10_visit_lsn_internal_terminates (s : PqCompressionStorage)
    (store : NodeStore) (gns : GraphNeighborStore) (fuel : Nat)
    (lsr : ListSearchResult) (ns : List Nat)
    (h : visitFuel store gns lsr ns < fuel) :
    visit_lsn_internal s store gns fuel lsr ns ≠ .outOfFuel :=
  visit_lsn_internal_enough_fuel s store gns fuel lsr ns h

/-- C10 witness: on the two-node tombstone cycle, the fuel bound is 5 and
the expansion with fuel 6 completes rather than running out. -/
theorem C10_visit_lsn_internal_terminates_witness :
    visitFuel exCycleStore .disk exLsrFull [1] < 6 ∧
    visit_lsn_internal exStorage exCycleStore .disk 6 exLsrFull [1] ≠ .outOfFuel :=
  ⟨by decide, C10_visit_lsn_internal_terminates exStorage exCycleStore .disk 6 exLsrFull
    [1] (by decide)⟩

theorem create_lsn_ok_shape (s : PqCompressionStorage) (store : NodeStore)
    (gns : GraphNeighborStore) (lsr : ListSearchResult) (p : Nat)
    (lsr2 : ListSearchResult) (lsn : ListSearchNeighbor)
    (h : create_lsn_for_init_id s store gns lsr p = .ok (lsr2, lsn)) :
    lsr2.candidates = lsr.candidates ∧ lsr2.seen = p :: lsr.seen := by
  unfold create_lsn_for_init_id at h
  by_cases hp : p ∈ lsr.seen
  · rw [ListSearchResult.prepare_insert_of_mem hp] at h
    exact absurd h (by simp)
  · rw [ListSearchResult.prepare_insert_of_not_mem hp] at h
    cases hread : Node.read store p with
    | none =>
      rw [hread] at h
      exact absurd h (by simp)
    | some node =>
      rw [hread] at h
      cases hsdm : lsr.sdm with
      | none =>
        simp [hsdm] at h
      | some sdm =>
        cases sdm with
        | Full query =>
          cases hdel : node.is_deleted with
          | true =>
            simp [hsdm, hdel] at h
          | false =>
            cases hdist : calculate_full_distance s node.heap_item_pointer query with
            | none =>
              simp [hsdm, hdel, hdist] at h
            | some d =>
              simp only [hsdm, hdel, Bool.false_eq_true, if_false, hdist,
                VisitResult.ok.injEq, Prod.mk.injEq] at h
              rcases h with ⟨h1, _⟩
              rw [← h1]
              exact ⟨rfl, rfl⟩
        | Pq table =>
          simp only [hsdm, VisitResult.ok.injEq, Prod.mk.injEq] at h
          rcases h with ⟨h1, _⟩
          rw [← h1]
          exact ⟨rfl, rfl⟩

/-- C1 counterexample: with the Pq (quantized) distance measure, the
expansion scores a tombstoned neighbor from its stored compressed code and
inserts it as a candidate, so the pass-through policy does not hold for the
Pq mode: node 1 is deleted yet ends up in the candidate list with the
table-lookup distance of its own pq code. -/
theorem C1_counterexample :
    Node.read exStore 1 = some exNode1 ∧ exNode1.is_deleted = true ∧
    visit_lsn_internal exStorage exStore .disk 5 exLsrPq [1] =
      .ok { seen := [1],
            candidates := [⟨1,
              PqSearchDistanceMeasure.calculate_pq_distance exTable exNode1.pq_vector,
              [2], 10⟩],
            sdm := some (.Pq exTable) } :=
  ⟨rfl, rfl, rfl⟩

/-- C1 as amended: only under the Full distance measure does the expansion
treat a tombstoned neighbor as a pass-through hop: its stored data is never
used, the search recursively expands its neighbors, and no tombstoned node
is ever inserted as a candidate; under the Pq measure the stored code is
used and the node is inserted. -/
theorem C1_full_mode_tombstone_pass_through (s : PqCompressionStorage)
    (store : NodeStore) (gns : GraphNeighborStore) (fuel : Nat)
    (lsr : ListSearchResult) (ns : List Nat) (lsr' : ListSearchResult)
    (query : List Int) (hsdm : lsr.sdm = some (.Full query))
    (hlive : candidatesLive store lsr)
    (hrun : visit_lsn_internal s store gns fuel lsr ns = .ok lsr') :
    candidatesLive store lsr' ∧
    ∀ (p : Nat) (rest : List Nat) (node : ArchivedNode), p ∉ lsr.seen →
      Node.read store p = some node → node.is_deleted = true →
      visit_lsn_internal s store gns (fuel + 1) lsr (p :: rest) =
        (match visit_lsn_internal s store gns fuel { lsr with seen := p :: lsr.seen }
            (pvtNeighbors gns p node) with
         | .ok lsr2 => visit_lsn_internal s store gns fuel lsr2 rest
         | .fatal => .fatal
         | .outOfFuel => .outOfFuel) :=
  ⟨visit_lsn_internal_live s store gns fuel lsr ns lsr' query hsdm hlive hrun,
   fun _ rest _ hp hread hdel =>
     visit_lsn_internal_full_deleted s store gns fuel rest hp hread hsdm hdel⟩

/-- C1 witness: the amended statement instantiated on the concrete store
where tombstoned node 1 points at live node 2 and the Full-mode expansion
of [1] yields only node 2 as a candidate. -/
theorem C1_full_mode_tombstone_pass_through_witness :
    candidatesLive exStore exLsrFullOut ∧
    ∀ (p : Nat) (rest : List Nat) (node : ArchivedNode), p ∉ exLsrFull.seen →
      Node.read exStore p = some node → node.is_deleted = true →
      visit_lsn_internal exStorage exStore .disk (5 + 1) exLsrFull (p :: rest) =
        (match visit_lsn_internal exStorage exStore .disk 5
            { exLsrFull with seen := p :: exLsrFull.seen } (pvtNeighbors .disk p node) with
         | .ok lsr2 => visit_lsn_internal exStorage exStore .disk 5 lsr2 rest
         | .fatal => .fatal
         | .outOfFuel => .outOfFuel) :=
  C1_full_mode_tombstone_pass_through exStorage exStore .disk 5 exLsrFull [1]
    exLsrFullOut [0] rfl (fun c hc => absurd hc (List.not_mem_nil c)) rfl

/-- C2 counterexample: an attempt to seed an already-present ItemPointer
through create_lsn_for_init_id is not silently skipped: prepare_insert
returns false and the call is a fatal error, aborting the search. -/
theorem C2_counterexample :
    (ListSearchResult.prepare_insert
      { seen := [1], candidates := [], sdm := some (.Pq exTable) } 1).1 = false ∧
    create_lsn_for_init_id exStorage exStore .disk
      { seen := [1], candidates := [], sdm := some (.Pq exTable) } 1 = .fatal :=
  ⟨rfl, rfl⟩

/-- C2 as amended: every ItemPointer occurs at most once among the
candidates and the candidate count equals the number of distinct pointers
inserted; in visit_lsn_internal a duplicate neighbor is silently skipped
(prepare_insert returns false, the node is not re-read or re-scored, the
loop just continues); in create_lsn_for_init_id a duplicate init id is a
fatal error rather than a silent skip, and a successful seeding leaves the
candidate list untouched. -/
theorem C2_no_duplicate_invariant (s : PqCompressionStorage) (store : NodeStore)
    (gns : GraphNeighborStore) (fuel : Nat) (lsr : ListSearchResult) (ns : List Nat)
    (lsr' : ListSearchResult) (hseen : candidatesSeen lsr) (hnd : noDupCandidates lsr)
    (hrun : visit_lsn_internal s store gns fuel lsr ns = .ok lsr') :
    noDupCandidates lsr' ∧
    lsr'.candidates.length =
      (lsr'.candidates.map ListSearchNeighbor.index_pointer).toFinset.card ∧
    (∀ (p : Nat) (rest : List Nat), p ∈ lsr.seen →
      visit_lsn_internal s store gns (fuel + 1) lsr (p :: rest) =
        visit_lsn_internal s store gns fuel lsr rest) ∧
    (∀ p : Nat, p ∈ lsr.seen → create_lsn_for_init_id s store gns lsr p = .fatal) ∧
    (∀ (p : Nat) (lsr2 : ListSearchResult) (lsn : ListSearchNeighbor),
      create_lsn_for_init_id s store gns lsr p = .ok (lsr2, lsn) →
      lsr2.candidates = lsr.candidates) := by
  have hinv := visit_lsn_internal_inv s store gns fuel lsr ns lsr' hseen hnd hrun
  refine ⟨hinv.2, ?_, ?_, ?_, ?_⟩
  · rw [List.toFinset_card_of_nodup hinv.2, List.length_map]
  · intro p rest hp
    exact visit_lsn_internal_dup s store gns fuel rest hp
  · intro p hp
    unfold create_lsn_for_init_id
    rw [ListSearchResult.prepare_insert_of_mem hp]
  · intro p lsr2 lsn h
    exact (create_lsn_ok_shape s store gns lsr p lsr2 lsn h).1

/-- C2 witness: the amended statement instantiated on the Pq-mode expansion
of [1] over the concrete store, starting from the empty working set. -/
theorem C2_no_duplicate_invariant_witness :
    noDupCandidates exLsrPqOut ∧
    exLsrPqOut.candidates.length =
      (exLsrPqOut.candidates.map ListSearchNeighbor.index_pointer).toFinset.card ∧
    (∀ (p : Nat) (rest : List Nat), p ∈ exLsrPq.seen →
      visit_lsn_internal exStorage exStore .disk (5 + 1) exLsrPq (p :: rest) =
        visit_lsn_internal exStorage exStore .disk 5 exLsrPq rest) ∧
    (∀ p : Nat, p ∈ exLsrPq.seen →
      create_lsn_for_init_id exStorage exStore .disk exLsrPq p = .fatal) ∧
    (∀ (p : Nat) (lsr2 : ListSearchResult) (lsn : ListSearchNeighbor),
      create_lsn_for_init_id exStorage exStore .disk exLsrPq p = .ok (lsr2, lsn) →
      lsr2.candidates = exLsrPq.candidates) :=
  C2_no_duplicate_invariant exStorage exStore .disk 5 exLsrPq [1] exLsrPqOut
    (fun c hc => absurd hc (List.not_mem_nil c)) List.nodup_nil rfl

/-- C7 counterexample: for storage built by load_for_search (no heap
relation bound), a Full-mode expansion over a live node is a fatal error
instead of succeeding: the heap unwrap fails, so the Full / Pq choice is
not usable on every construction path. -/
theorem C7_counterexample :
    exSearchStorage.heap_rel = none ∧
    Node.read exStore 2 = some exNode2 ∧ exNode2.is_deleted = false ∧
    visit_lsn_internal exSearchStorage exStore .disk 5 exLsrFull [2] = .fatal :=
  ⟨rfl, rfl, rfl, rfl⟩

/-- C7 as amended: when the storage carries a bound heap relation and heap
attribute (the build and insert construction paths), every candidate
produced by a Full-mode search is scored by fetching the full vector from
the heap via the node heap pointer and applying the configured distance
function against the query; for load_for_search storage the Full-mode
distance computation always fails, since no heap relation is bound. -/
theorem C7_full_distance_from_heap (s : PqCompressionStorage) (store : NodeStore)
    (gns : GraphNeighborStore) (fuel : Nat) (lsr : ListSearchResult) (ns : List Nat)
    (lsr' : ListSearchResult) (query : List Int) (rel : HeapRelation) (attr : Nat)
    (hrel : s.heap_rel = some rel) (hattr : s.heap_attr = some attr)
    (hsdm : lsr.sdm = some (.Full query))
    (hdi : candidatesFullDist s store rel query lsr)
    (hrun : visit_lsn_internal s store gns fuel lsr ns = .ok lsr') :
    candidatesFullDist s store rel query lsr' ∧
    ∀ (q0 : PqQuantizer) (f : List Int → List Int → Int) (hp2 : Nat)
      (query2 : List Int),
      calculate_full_distance (PqCompressionStorage.load_for_search q0 f) hp2 query2 =
        none :=
  ⟨visit_lsn_internal_full_dist s store gns hrel hattr fuel lsr ns lsr' query hsdm hdi
    hrun,
   fun _ _ _ _ => rfl⟩

/-- C7 witness: the amended statement instantiated on the Full-mode
expansion of [1] over the concrete store with the heap relation bound; the
resulting candidate for node 2 carries distance 121, the configured
distance of heap row 11 against the query. -/
theorem C7_full_distance_from_heap_witness :
    candidatesFullDist exStorage exStore exHeap [0] exLsrFullOut ∧
    ∀ (q0 : PqQuantizer) (f : List Int → List Int → Int) (hp2 : Nat)
      (query2 : List Int),
      calculate_full_distance (PqCompressionStorage.load_for_search q0 f) hp2 query2 =
        none :=
  C7_full_distance_from_heap exStorage exStore .disk 5 exLsrFull [1] exLsrFullOut [0]
    exHeap 1 rfl rfl rfl (fun c hc => absurd hc (List.not_mem_nil c)) rfl

/-- C8: finalize_node_at_end_of_build stores the given neighbors as the
final adjacency of the node and stores the compressed code obtained by
fetching the node full vector from the heap via its heap back-pointer and
quantizing it, committing both changes through a single write of the
modified node; the heap pointer and tombstone flag are carried over
unchanged. -/
theorem C8_finalize_commits_neighbors_and_code (s : PqCompressionStorage)
    (store : NodeStore) (p : Nat) (ns : List (Nat × Int)) (node : ArchivedNode)
    (rel : HeapRelation) (attr : Nat) (hread : Node.read store p = some node)
    (hrel : s.heap_rel = some rel) (hattr : s.heap_attr = some attr) :
    s.finalize_node_at_end_of_build store p ns =
      some (Node.write store p
        ⟨node.heap_item_pointer, ns,
         s.quantizer.quantize (rel.fetch node.heap_item_pointer), node.deleted⟩) ∧
    Node.read (Node.write store p
        ⟨node.heap_item_pointer, ns,
         s.quantizer.quantize (rel.fetch node.heap_item_pointer), node.deleted⟩) p =
      some ⟨node.heap_item_pointer, ns,
        s.quantizer.quantize (rel.fetch node.heap_item_pointer), node.deleted⟩ := by
  have hq : s.get_quantized_vector_from_heap_pointer node.heap_item_pointer =
      some (s.quantizer.quantize (rel.fetch node.heap_item_pointer)) := by
    unfold PqCompressionStorage.get_quantized_vector_from_heap_pointer
      PqCompressionStorage.get_heap_table_slot_from_heap_pointer
    rw [hrel, hattr]
    rfl
  refine ⟨?_, Node.read_write_self store p node _ hread⟩
  unfold PqCompressionStorage.finalize_node_at_end_of_build
  rw [hread]
  simp only [hq]
  rfl

/-- C8 witness: finalizing node 2 of the concrete store with adjacency
[(1, 3)] writes back the node with that adjacency and the quantized code of
heap row 11, all other fields unchanged. -/
theorem C8_finalize_commits_neighbors_and_code_witness :
    PqCompressionStorage.finalize_node_at_end_of_build exStorage exStore 2 [(1, 3)] =
      some (Node.write exStore 2
        ⟨exNode2.heap_item_pointer, [(1, 3)],
         exStorage.quantizer.quantize (exHeap.fetch exNode2.heap_item_pointer),
         exNode2.deleted⟩) ∧
    Node.read (Node.write exStore 2
        ⟨exNode2.heap_item_pointer, [(1, 3)],
         exStorage.quantizer.quantize (exHeap.fetch exNode2.heap_item_pointer),
         exNode2.deleted⟩) 2 =
      some ⟨exNode2.heap_item_pointer, [(1, 3)],
        exStorage.quantizer.quantize (exHeap.fetch exNode2.heap_item_pointer),
        exNode2.deleted⟩ :=
  C8_finalize_commits_neighbors_and_code exStorage exStore 2 [(1, 3)] exNode2 exHeap 1
    rfl rfl rfl

/-- C9: set_neighbors_on_disk replaces the persisted adjacency of the node
at the given pointer with the given neighbors and leaves the heap pointer,
compressed code and tombstone flag of that node unchanged, and leaves every
other node of the store unchanged. -/
theorem C9_set_neighbors_on_disk_frame (s : PqCompressionStorage) (store : NodeStore)
    (p : Nat) (ns : List (Nat × Int)) (node : ArchivedNode)
    (hread : Node.read store p = some node) :
    s.set_neighbors_on_disk store p ns =
      some (Node.write store p
        ⟨node.heap_item_pointer, ns, node.pq_vector, node.deleted⟩) ∧
    Node.read (Node.write store p
        ⟨node.heap_item_pointer, ns, node.pq_vector, node.deleted⟩) p =
      some ⟨node.heap_item_pointer, ns, node.pq_vector, node.deleted⟩ ∧
    ∀ q : Nat, q ≠ p →
      Node.read (Node.write store p
          ⟨node.heap_item_pointer, ns, node.pq_vector, node.deleted⟩) q =
        Node.read store q := by
  refine ⟨?_, Node.read_write_self store p node _ hread,
    fun q hq => Node.read_write_other store p q _ hq⟩
  unfold PqCompressionStorage.set_neighbors_on_disk
  rw [hread]
  rfl

/-- C9 witness: updating the adjacency of node 2 of the concrete store to
[(1, 3)] changes only that adjacency; node 1 reads back unchanged. -/
theorem C9_set_neighbors_on_disk_frame_witness :
    PqCompressionStorage.set_neighbors_on_disk exStorage exStore 2 [(1, 3)] =
      some (Node.write exStore 2
        ⟨exNode2.heap_item_pointer, [(1, 3)], exNode2.pq_vector, exNode2.deleted⟩) ∧
    Node.read (Node.write exStore 2
        ⟨exNode2.heap_item_pointer, [(1, 3)], exNode2.pq_vector, exNode2.deleted⟩) 2 =
      some ⟨exNode2.heap_item_pointer, [(1, 3)], exNode2.pq_vector, exNode2.deleted⟩ ∧
    ∀ q : Nat, q ≠ 2 →
      Node.read (Node.write exStore 2
          ⟨exNode2.heap_item_pointer, [(1, 3)], exNode2.pq_vector, exNode2.deleted⟩) q =
        Node.read exStore q :=
  C9_set_neighbors_on_disk_frame exStorage exStore 2 [(1, 3)] exNode2 rfl
